import Mathlib

/-!
Verification development for the D2L Question Library CSV converter.

The source program is a TypeScript module with a four-stage pipeline:
field parsing (parseCSV / parseCSVLine), column validation
(validateColumns), grouping (groupQuestions) and emission
(generateD2LCSV), tied together by convertToD2L.

Strings are modelled as lists of characters (`Str`).  JavaScript string
operations used by the source are modelled explicitly: `trim`,
`toLowerCase` / `toUpperCase` (ASCII, which is all the source compares),
`split(/\r?\n/)`, `substring(0, n)` (= take n) and template
interpolation of natural numbers (`natRepr`).  JavaScript objects
(`Record<string, string>`) are modelled as insertion-ordered association
lists with unique keys (`Rec`); key insertion via `objInsert` replaces
the value in place when the key exists, as JS property assignment does.
JavaScript `Map` is modelled the same way (`mapPush`).  Thrown errors
are modelled by `Except ConvError`.
-/

namespace D2L

abbrev Str := List Char

def str (s : String) : Str := s.toList

/-- The whitespace class stripped by the JavaScript trim operation
(ASCII part, which covers every input this development uses). -/
def jsIsWS (c : Char) : Bool :=
  c == ' ' || c == '\t' || c == '\n' || c == '\r' || c == '\x0b' || c == '\x0c'

def jsTrim (s : Str) : Str :=
  ((s.dropWhile jsIsWS).reverse.dropWhile jsIsWS).reverse

def jsToLower (s : Str) : Str := s.map Char.toLower

def jsToUpper (s : Str) : Str := s.map Char.toUpper

/-! ## Line splitting: content.split(/\r?\n/) -/

/-- Split on every newline character (the pieces before stripping the
optional carriage return that precedes a newline). -/
def splitNL : Str → List Str
  | [] => [[]]
  | c :: rest =>
    if c = '\n' then [] :: splitNL rest
    else
      match splitNL rest with
      | [] => [[c]]
      | l :: ls => (c :: l) :: ls

/-- Remove one trailing carriage return from a piece (the half of the
regex that eats the CR of a CRLF pair). -/
def stripTrailCR (l : Str) : Str :=
  if l.getLast? = some '\r' then l.dropLast else l

/-- Every piece except the last was followed by a newline in the input,
so a trailing CR there belonged to a CRLF pair and is removed. -/
def stripCR : List Str → List Str
  | [] => []
  | [l] => [l]
  | l :: ls => stripTrailCR l :: stripCR ls

/-- The line stage of parseCSV: split on `\r?\n` and drop lines that are
blank after trimming. -/
def reLines (content : Str) : List Str :=
  (stripCR (splitNL content)).filter (fun l => !(jsTrim l).isEmpty)

/-! ## parseCSVLine: the quote-aware field state machine -/

/-- Parser mode.  The source walks the line with an index `i` and a
boolean `inQuotes`; the branch for a doubled quote inspects `line[i+1]`
and skips it with `i++`.  That one-character lookahead is encoded here
as a third mode `afterq`: the machine has just consumed a `"` while in
quoted mode and decides on the next character whether it was a doubled
quote (append a literal quote, stay quoted) or a closing quote (the
character is then handled exactly as in plain mode; it cannot itself be
a quote in that case). -/
inductive QMode | plain | inq | afterq
deriving DecidableEq, Repr

def parseLineGo : Str → Str → QMode → List Str
  | [], cur, _ => [cur.reverse]
  | c :: rest, cur, QMode.inq =>
    if c = '"' then parseLineGo rest cur QMode.afterq
    else parseLineGo rest (c :: cur) QMode.inq
  | c :: rest, cur, QMode.afterq =>
    if c = '"' then parseLineGo rest ('"' :: cur) QMode.inq
    else if c = ',' then cur.reverse :: parseLineGo rest [] QMode.plain
    else parseLineGo rest (c :: cur) QMode.plain
  | c :: rest, cur, QMode.plain =>
    if c = '"' then parseLineGo rest cur QMode.inq
    else if c = ',' then cur.reverse :: parseLineGo rest [] QMode.plain
    else parseLineGo rest (c :: cur) QMode.plain

def parseCSVLine (line : Str) : List Str := parseLineGo line [] QMode.plain

/-! ## Records (JS objects) and parseCSV -/

abbrev Rec := List (Str × Str)

/-- JS property assignment: update in place when the key exists,
otherwise append (insertion order preserved). -/
def objInsert (r : Rec) (k v : Str) : Rec :=
  if r.any (fun p => p.1 = k) then
    r.map (fun p => if p.1 = k then (k, v) else p)
  else r ++ [(k, v)]

/-- Build one row record: for each header position, assign the value at
that position (empty when the line is short), later duplicate headers
overwriting earlier ones. -/
def mkRow (headers : List Str) (values : List Str) : Rec :=
  headers.enum.foldl (fun r p => objInsert r p.2 (values.getD p.1 [])) []

def parseCSV (content : Str) : Option (List Str × List Rec) :=
  match reLines content with
  | [] => none
  | hdr :: dataLines =>
    let headers := parseCSVLine hdr
    some (headers, dataLines.map (fun line => mkRow headers (parseCSVLine line)))

/-! ## Column validation -/

def REQUIRED_COLUMNS : List Str :=
  [str "Q Type", str "Q Text", str "Answer", str "Answer Match", str "Notes"]

def validateColumns (headers : List Str) : Bool × List Str :=
  let normalizedHeaders := headers.map (fun h => jsToLower (jsTrim h))
  let missing := REQUIRED_COLUMNS.filter
    (fun required => !(normalizedHeaders.contains (jsToLower required)))
  (missing.isEmpty, missing)

/-- Case-insensitive, trimmed column lookup on a record. -/
def getColumnValue (row : Rec) (columnName : Str) : Str :=
  match row.find? (fun p => jsToLower (jsTrim p.1) == jsToLower columnName) with
  | some p => p.2
  | none => []

/-! ## Typed rows -/

structure SourceRow where
  qNumber : Str
  qType : Str
  qText : Str
  question : Str
  answer : Str
  answerMatch : Str
  notes : Str
deriving DecidableEq, Repr

def toSourceRow (row : Rec) : SourceRow :=
  { qNumber := getColumnValue row (str "Q #")
    qType := getColumnValue row (str "Q Type")
    qText := getColumnValue row (str "Q Text")
    question := getColumnValue row (str "Question")
    answer := getColumnValue row (str "Answer")
    answerMatch := getColumnValue row (str "Answer Match")
    notes := getColumnValue row (str "Notes") }

def loadSourceRows (rows : List Rec) : List SourceRow :=
  rows.map toSourceRow

/-! ## Grouping -/

structure MCOption where
  answer : Str
  isCorrect : Bool
  feedback : Str
deriving DecidableEq, Repr

structure QuestionGroup where
  qText : Str
  question : Str
  options : List MCOption
deriving DecidableEq, Repr

structure GroupResult where
  groups : List QuestionGroup
  warnings : List Str
  skipped : Nat
deriving DecidableEq, Repr

/-- Decimal rendering of a natural number, as JS template interpolation
produces for natural values. -/
def digitChar : Nat → Char
  | 0 => '0' | 1 => '1' | 2 => '2' | 3 => '3' | 4 => '4'
  | 5 => '5' | 6 => '6' | 7 => '7' | 8 => '8' | _ => '9'

def natReprGo : Nat → Nat → Str → Str
  | 0, _, acc => acc
  | fuel + 1, n, acc =>
    if n < 10 then digitChar n :: acc
    else natReprGo fuel (n / 10) (digitChar (n % 10) :: acc)

def natRepr (n : Nat) : Str := natReprGo (n + 1) n []

def mkOption (r : SourceRow) : MCOption :=
  { answer := r.answer
    isCorrect := decide (jsToLower (jsTrim r.answerMatch) = str "correct")
    feedback := r.notes }

def warnNoNumber (qText : Str) : Str :=
  str "Row with Q Text \"" ++ qText.take 30 ++ str "...\" has no Q # - skipped"

def warnNotMC (qNumber qType : Str) : Str :=
  str "Row with Q# \"" ++ qNumber ++ str "\" has type \"" ++ qType
    ++ str "\" (not MC) - skipped"

abbrev GMap := List (Str × QuestionGroup)

/-- Lazily create the entry for a key (seeding qText from the creating
row) and push one option onto it; an existing entry keeps its position
and its qText, exactly as a JS Map set/get sequence does. -/
def mapPush : GMap → Str → Str → MCOption → GMap
  | [], key, qt, o => [(key, ⟨qt, [], [o]⟩)]
  | (k, g) :: rest, key, qt, o =>
    if k = key then (k, { g with options := g.options ++ [o] }) :: rest
    else (k, g) :: mapPush rest key qt o

structure GState where
  groupMap : GMap
  warnings : List Str
  skipped : Nat

def processRow (st : GState) (row : SourceRow) : GState :=
  if jsTrim row.qNumber = [] then
    { st with warnings := st.warnings ++ [warnNoNumber row.qText]
              skipped := st.skipped + 1 }
  else if jsToUpper (jsTrim row.qType) ≠ str "MC" then
    { st with warnings := st.warnings ++ [warnNotMC row.qNumber row.qType]
              skipped := st.skipped + 1 }
  else
    { st with groupMap :=
        mapPush st.groupMap (jsTrim row.qNumber) row.qText (mkOption row) }

def groupWarnings (g : QuestionGroup) : List Str :=
  let correctCount := (g.options.filter (fun o => o.isCorrect)).length
  let questionPreview := (g.qText ++ [' '] ++ g.question).take 50 ++ str "..."
  if correctCount = 0 then
    [str "Question \"" ++ questionPreview ++ str "\" has no correct answer"]
  else if correctCount > 1 then
    [str "Question \"" ++ questionPreview ++ str "\" has "
      ++ natRepr correctCount ++ str " correct answers"]
  else []

def groupFold (rows : List SourceRow) : GState :=
  rows.foldl processRow ⟨[], [], 0⟩

def groupQuestions (rows : List SourceRow) : GroupResult :=
  let st := groupFold rows
  let groups := st.groupMap.map Prod.snd
  ⟨groups, st.warnings ++ groups.flatMap groupWarnings, st.skipped⟩

/-! ## Emission -/

/-- Replace every double quote by a doubled double quote (the global
regex replace of the source). -/
def dqEsc (value : Str) : Str :=
  value.flatMap (fun c => if c = '"' then ['"', '"'] else [c])

def escapeCSV (value : Str) : Str :=
  if ',' ∈ value ∨ '"' ∈ value ∨ '\n' ∈ value then
    '"' :: dqEsc value ++ ['"']
  else value

def weightStr (o : MCOption) : Str := if o.isCorrect then str "100" else str "0"

def optionLine (o : MCOption) : Str :=
  str "Option," ++ weightStr o ++ str "," ++ escapeCSV o.answer
    ++ str ",," ++ escapeCSV o.feedback

def questionTextLine (g : QuestionGroup) : Str :=
  str "QuestionText," ++ escapeCSV (jsTrim g.qText) ++ str ",,,"

def pointsLine (points : Nat) : Str :=
  str "Points," ++ natRepr points ++ str ",,,"

def groupLines (points : Nat) (g : QuestionGroup) : List Str :=
  str "NewQuestion,MC,,," :: questionTextLine g :: pointsLine points ::
    (g.options.map optionLine ++ [str ",,,,"])

def d2lLines (groups : List QuestionGroup) (points : Nat) : List Str :=
  groups.flatMap (groupLines points)

/-- Model of the join of the line array with the newline separator. -/
def joinNL : List Str → Str
  | [] => []
  | [l] => l
  | l :: ls => l ++ '\n' :: joinNL ls

def generateD2LCSV (groups : List QuestionGroup) (points : Nat) : Str × Nat :=
  (joinNL (d2lLines groups points),
   groups.foldl (fun n g => n + g.options.length) 0)

/-! ## Top-level conversion -/

structure ConversionResult where
  csvContent : Str
  questionsCount : Nat
  optionsCount : Nat
  warnings : List Str
  skippedRows : Nat
deriving DecidableEq, Repr

inductive ConvError where
  | emptyInput : ConvError
  | missingColumns : List Str → ConvError
  | noQuestions : ConvError
deriving DecidableEq, Repr

def convertToD2L (csvContent : Str) (points : Nat) :
    Except ConvError ConversionResult :=
  match parseCSV csvContent with
  | none => .error .emptyInput
  | some (headers, rows) =>
    let validation := validateColumns headers
    if !validation.1 then .error (.missingColumns validation.2)
    else
      let sourceRows := loadSourceRows rows
      let gr := groupQuestions sourceRows
      if gr.groups.isEmpty then .error .noQuestions
      else
        let out := generateD2LCSV gr.groups points
        .ok { csvContent := out.1
              questionsCount := gr.groups.length
              optionsCount := out.2
              warnings := gr.warnings
              skippedRows := gr.skipped }

/-! ## Unfolding lemmas for the field state machine -/

lemma parseLineGo_nil (cur : Str) (q : QMode) :
    parseLineGo [] cur q = [cur.reverse] := by
  cases q <;> rfl

lemma parseLineGo_lit (c : Char) (rest cur : Str) (hq : c ≠ '"') (hc : c ≠ ',') :
    parseLineGo (c :: rest) cur QMode.plain = parseLineGo rest (c :: cur) QMode.plain := by
  simp [parseLineGo, hq, hc]

lemma parseLineGo_comma (rest cur : Str) :
    parseLineGo (',' :: rest) cur QMode.plain
      = cur.reverse :: parseLineGo rest [] QMode.plain := by
  simp [parseLineGo]

lemma parseLineGo_openq (rest cur : Str) :
    parseLineGo ('"' :: rest) cur QMode.plain = parseLineGo rest cur QMode.inq := by
  simp [parseLineGo]

lemma parseLineGo_inq_lit (c : Char) (rest cur : Str) (hq : c ≠ '"') :
    parseLineGo (c :: rest) cur QMode.inq = parseLineGo rest (c :: cur) QMode.inq := by
  simp [parseLineGo, hq]

lemma parseLineGo_inq_dq (rest cur : Str) :
    parseLineGo ('"' :: '"' :: rest) cur QMode.inq
      = parseLineGo rest ('"' :: cur) QMode.inq := by
  simp [parseLineGo]

lemma parseLineGo_closeq_end (cur : Str) :
    parseLineGo ['"'] cur QMode.inq = [cur.reverse] := by
  simp [parseLineGo]

lemma parseLineGo_closeq (c2 : Char) (rest2 cur : Str) (h : c2 ≠ '"') :
    parseLineGo ('"' :: c2 :: rest2) cur QMode.inq
      = parseLineGo (c2 :: rest2) cur QMode.plain := by
  simp only [parseLineGo, if_pos rfl]
  by_cases hc : c2 = ','
  · simp [parseLineGo, h, hc]
  · simp [parseLineGo, h, hc]

/-- Outside quotes, a run of plain characters is appended to the current
field. -/
lemma parseLineGo_run (v : Str) :
    ∀ rest cur, (∀ c ∈ v, c ≠ ',' ∧ c ≠ '"') →
      parseLineGo (v ++ rest) cur QMode.plain
        = parseLineGo rest (v.reverse ++ cur) QMode.plain := by
  induction v with
  | nil => simp
  | cons c v ih =>
    intro rest cur h
    have hc := h c (by simp)
    rw [List.cons_append, parseLineGo_lit c _ _ hc.2 hc.1,
      ih rest (c :: cur) (fun x hx => h x (by simp [hx]))]
    simp

/-- Inside quotes, the quote-doubled body followed by the closing quote
appends the raw body and leaves quoted mode (provided the character after
the closing quote is not another quote). -/
lemma parseLineGo_body (v : Str) :
    ∀ rest cur, rest.head? ≠ some '"' →
      parseLineGo (dqEsc v ++ '"' :: rest) cur QMode.inq
        = parseLineGo rest (v.reverse ++ cur) QMode.plain := by
  induction v with
  | nil =>
    intro rest cur h
    cases rest with
    | nil => simp [dqEsc, parseLineGo_closeq_end, parseLineGo_nil]
    | cons c2 rest2 =>
      have : c2 ≠ '"' := by
        intro hc; exact h (by simp [hc])
      simp [dqEsc, parseLineGo_closeq c2 rest2 cur this]
  | cons c v ih =>
    intro rest cur h
    by_cases hc : c = '"'
    · subst hc
      have hd : dqEsc ('"' :: v) = '"' :: '"' :: dqEsc v := by simp [dqEsc]
      rw [hd, List.cons_append, List.cons_append, parseLineGo_inq_dq,
        ih rest ('"' :: cur) h]
      simp
    · have hd : dqEsc (c :: v) = c :: dqEsc v := by simp [dqEsc, hc]
      rw [hd, List.cons_append, parseLineGo_inq_lit c _ _ hc, ih rest (c :: cur) h]
      simp

/-- An escaped field consumed from the plain state appends the raw field
value, provided the next character is not a quote. -/
lemma parseLineGo_escaped (v : Str) (rest cur : Str) (h : rest.head? ≠ some '"') :
    parseLineGo (escapeCSV v ++ rest) cur QMode.plain
      = parseLineGo rest (v.reverse ++ cur) QMode.plain := by
  by_cases hs : ',' ∈ v ∨ '"' ∈ v ∨ '\n' ∈ v
  · rw [escapeCSV, if_pos hs]
    have : ('"' :: dqEsc v ++ ['"']) ++ rest = '"' :: (dqEsc v ++ '"' :: rest) := by
      simp
    rw [this, parseLineGo_openq, parseLineGo_body v rest cur h]
  · rw [escapeCSV, if_neg hs]
    exact parseLineGo_run v rest cur
      (fun c hc => ⟨fun he => hs (Or.inl (he ▸ hc)),
                    fun he => hs (Or.inr (Or.inl (he ▸ hc)))⟩)

/-- One escaped field followed by a comma contributes exactly the raw
field value. -/
lemma parse_field_step (v R : Str) :
    parseLineGo (escapeCSV v ++ ',' :: R) [] QMode.plain
      = v :: parseLineGo R [] QMode.plain := by
  rw [parseLineGo_escaped v (',' :: R) [] (by simp), parseLineGo_comma]
  simp

/-- A final escaped field contributes exactly the raw field value. -/
lemma parse_field_last (v : Str) :
    parseLineGo (escapeCSV v) [] QMode.plain = [v] := by
  have := parseLineGo_escaped v [] [] (by simp)
  rw [List.append_nil] at this
  rw [this, parseLineGo_nil]
  simp

lemma parse_escapeCSV (v : Str) : parseCSVLine (escapeCSV v) = [v] :=
  parse_field_last v

/-! ## Decimal rendering facts -/

lemma digitChar_mem (k : Nat) : digitChar k ∈ str "0123456789" := by
  rcases k with _|_|_|_|_|_|_|_|_|_|k
  case succ.succ.succ.succ.succ.succ.succ.succ.succ.succ =>
    show '9' ∈ str "0123456789"
    decide
  all_goals decide

lemma natReprGo_mem :
    ∀ (fuel n : Nat) (acc : Str), (∀ c ∈ acc, c ∈ str "0123456789") →
      ∀ c ∈ natReprGo fuel n acc, c ∈ str "0123456789" := by
  intro fuel
  induction fuel with
  | zero => intro n acc hacc c hc; exact hacc c hc
  | succ fuel ih =>
    intro n acc hacc c hc
    rw [natReprGo] at hc
    by_cases hn : n < 10
    · rw [if_pos hn] at hc
      rcases List.mem_cons.mp hc with h | h
      · exact h ▸ digitChar_mem n
      · exact hacc c h
    · rw [if_neg hn] at hc
      refine ih (n / 10) _ ?_ c hc
      intro x hx
      rcases List.mem_cons.mp hx with h | h
      · exact h ▸ digitChar_mem (n % 10)
      · exact hacc x h

lemma natRepr_mem (n : Nat) : ∀ c ∈ natRepr n, c ∈ str "0123456789" :=
  natReprGo_mem (n + 1) n [] (by simp)

lemma natRepr_no_special (n : Nat) :
    ',' ∉ natRepr n ∧ '"' ∉ natRepr n ∧ '\n' ∉ natRepr n ∧ '\r' ∉ natRepr n := by
  refine ⟨fun h => ?_, fun h => ?_, fun h => ?_, fun h => ?_⟩ <;>
    · have := natRepr_mem n _ h
      simp [str] at this

lemma escapeCSV_natRepr (n : Nat) : escapeCSV (natRepr n) = natRepr n := by
  rw [escapeCSV, if_neg]
  rintro (h | h | h)
  · exact (natRepr_no_special n).1 h
  · exact (natRepr_no_special n).2.1 h
  · exact (natRepr_no_special n).2.2.1 h

/-! ## Parse-back of every emitted line kind -/

lemma escapeCSV_weightStr (o : MCOption) : escapeCSV (weightStr o) = weightStr o := by
  cases h : o.isCorrect <;> simp only [weightStr, h] <;> decide

lemma optionLine_decomp (o : MCOption) :
    optionLine o = escapeCSV (str "Option") ++ ',' ::
      (escapeCSV (weightStr o) ++ ',' ::
        (escapeCSV o.answer ++ ',' ::
          (escapeCSV ([] : Str) ++ ',' :: escapeCSV o.feedback))) := by
  rw [escapeCSV_weightStr, (by decide : escapeCSV (str "Option") = str "Option"),
    (by decide : escapeCSV ([] : Str) = ([] : Str))]
  show str "Option," ++ weightStr o ++ str "," ++ escapeCSV o.answer
    ++ str ",," ++ escapeCSV o.feedback = _
  have e1 : str "Option," = str "Option" ++ [','] := by decide
  have e2 : str "," = [','] := by decide
  have e3 : str ",," = [','] ++ [','] := by decide
  rw [e1, e2, e3]
  simp

lemma parse_optionLine (o : MCOption) :
    parseCSVLine (optionLine o)
      = [str "Option", weightStr o, o.answer, [], o.feedback] := by
  rw [parseCSVLine, optionLine_decomp, parse_field_step, parse_field_step,
    parse_field_step, parse_field_step, parse_field_last]

lemma questionTextLine_decomp (g : QuestionGroup) :
    questionTextLine g = escapeCSV (str "QuestionText") ++ ',' ::
      (escapeCSV (jsTrim g.qText) ++ ',' ::
        (escapeCSV ([] : Str) ++ ',' ::
          (escapeCSV ([] : Str) ++ ',' :: escapeCSV ([] : Str)))) := by
  rw [(by decide : escapeCSV (str "QuestionText") = str "QuestionText"),
    (by decide : escapeCSV ([] : Str) = ([] : Str))]
  show str "QuestionText," ++ escapeCSV (jsTrim g.qText) ++ str ",,," = _
  have e1 : str "QuestionText," = str "QuestionText" ++ [','] := by decide
  have e2 : str ",,," = [','] ++ [','] ++ [','] := by decide
  rw [e1, e2]
  simp

lemma parse_questionTextLine (g : QuestionGroup) :
    parseCSVLine (questionTextLine g)
      = [str "QuestionText", jsTrim g.qText, [], [], []] := by
  rw [parseCSVLine, questionTextLine_decomp, parse_field_step, parse_field_step,
    parse_field_step, parse_field_step, parse_field_last]

lemma pointsLine_decomp (points : Nat) :
    pointsLine points = escapeCSV (str "Points") ++ ',' ::
      (escapeCSV (natRepr points) ++ ',' ::
        (escapeCSV ([] : Str) ++ ',' ::
          (escapeCSV ([] : Str) ++ ',' :: escapeCSV ([] : Str)))) := by
  rw [escapeCSV_natRepr, (by decide : escapeCSV (str "Points") = str "Points"),
    (by decide : escapeCSV ([] : Str) = ([] : Str))]
  show str "Points," ++ natRepr points ++ str ",,," = _
  have e1 : str "Points," = str "Points" ++ [','] := by decide
  have e2 : str ",,," = [','] ++ [','] ++ [','] := by decide
  rw [e1, e2]
  simp

lemma parse_pointsLine (points : Nat) :
    parseCSVLine (pointsLine points)
      = [str "Points", natRepr points, [], [], []] := by
  rw [parseCSVLine, pointsLine_decomp, parse_field_step, parse_field_step,
    parse_field_step, parse_field_step, parse_field_last]

lemma parse_newQuestionLine :
    parseCSVLine (str "NewQuestion,MC,,,")
      = [str "NewQuestion", str "MC", [], [], []] := by decide

lemma parse_separatorLine :
    parseCSVLine (str ",,,,") = [[], [], [], [], []] := by decide

/-! ## Totality facts about the field state machine -/

lemma parseLineGo_ne_nil : ∀ (l cur : Str) (q : QMode), parseLineGo l cur q ≠ [] := by
  intro l
  induction l with
  | nil => intro cur q; simp [parseLineGo_nil]
  | cons c rest ih =>
    intro cur q
    cases q with
    | inq =>
      by_cases hc : c = '"'
      · subst hc; simpa [parseLineGo] using ih cur QMode.afterq
      · simpa [parseLineGo, hc] using ih (c :: cur) QMode.inq
    | afterq =>
      by_cases hc : c = '"'
      · subst hc; simpa [parseLineGo] using ih ('"' :: cur) QMode.inq
      · by_cases hcc : c = ','
        · subst hcc; simp [parseLineGo, hc]
        · simpa [parseLineGo, hc, hcc] using ih (c :: cur) QMode.plain
    | plain =>
      by_cases hc : c = '"'
      · subst hc; simpa [parseLineGo] using ih cur QMode.inq
      · by_cases hcc : c = ','
        · subst hcc; simp [parseLineGo, hc]
        · simpa [parseLineGo, hc, hcc] using ih (c :: cur) QMode.plain

/-- Inside an unterminated quoted section (no further quote character on
the line), every remaining character is appended and the accumulated
field is still emitted. -/
lemma parseLineGo_unterminated :
    ∀ (rest cur : Str), (∀ c ∈ rest, c ≠ '"') →
      parseLineGo rest cur QMode.inq = [cur.reverse ++ rest] := by
  intro rest
  induction rest with
  | nil =>
    intro cur _
    simp [parseLineGo_nil]
  | cons c rest ih =>
    intro cur h
    rw [parseLineGo_inq_lit c rest cur (h c (by simp)),
      ih (c :: cur) (fun x hx => h x (by simp [hx]))]
    simp

/-- Claim C8: every field value written by the emitter is escaped by
wrapping in double quotes with internal quotes doubled exactly when it
contains a comma, double quote or newline, and is emitted verbatim
otherwise; the escaping is applied to question text, answer text and
feedback text; numeric fields (weight, points) are emitted as bare
digit strings; consequently every emitted line field-parses back to
exactly its raw field values, so no raw special character sits inside
a field. -/
theorem claim_C8 :
    (∀ v : Str,
      (¬ (',' ∈ v ∨ '"' ∈ v ∨ '\n' ∈ v) → escapeCSV v = v)
      ∧ ((',' ∈ v ∨ '"' ∈ v ∨ '\n' ∈ v) → escapeCSV v = '"' :: dqEsc v ++ ['"'])
      ∧ parseCSVLine (escapeCSV v) = [v])
    ∧ (∀ o : MCOption,
        parseCSVLine (optionLine o)
          = [str "Option", weightStr o, o.answer, [], o.feedback])
    ∧ (∀ g : QuestionGroup,
        parseCSVLine (questionTextLine g)
          = [str "QuestionText", jsTrim g.qText, [], [], []])
    ∧ (∀ points : Nat,
        parseCSVLine (pointsLine points)
          = [str "Points", natRepr points, [], [], []]
        ∧ ∀ c ∈ natRepr points, c ∈ str "0123456789")
    ∧ parseCSVLine (str "NewQuestion,MC,,,") = [str "NewQuestion", str "MC", [], [], []]
    ∧ parseCSVLine (str ",,,,") = [[], [], [], [], []] := by
  refine ⟨fun v => ⟨fun h => ?_, fun h => ?_, parse_escapeCSV v⟩,
    parse_optionLine, parse_questionTextLine,
    fun points => ⟨parse_pointsLine points, natRepr_mem points⟩,
    parse_newQuestionLine, parse_separatorLine⟩
  · rw [escapeCSV, if_neg h]
  · rw [escapeCSV, if_pos h]

theorem claim_C8_witness :
    escapeCSV (str "ab") = str "ab"
    ∧ escapeCSV (str "a,b") = '"' :: dqEsc (str "a,b") ++ ['"']
    ∧ ('1' ∈ natRepr 15 → '1' ∈ str "0123456789") :=
  ⟨(claim_C8.1 (str "ab")).1 (by decide),
   (claim_C8.1 (str "a,b")).2.1 (by decide),
   fun h => (claim_C8.2.2.2.1 15).2 '1' h⟩

/-- Claim C10: the single-line field parser is a total function that
always emits at least the final field; when the line ends inside an
unterminated quoted section, the characters accumulated so far (plus
every remaining character) are emitted as the final field rather than
dropped. -/
theorem claim_C10 :
    (∀ line : Str, parseCSVLine line ≠ [])
    ∧ (∀ rest cur : Str, (∀ c ∈ rest, c ≠ '"') →
        parseLineGo rest cur QMode.inq = [cur.reverse ++ rest]) :=
  ⟨fun line => parseLineGo_ne_nil line [] QMode.plain, parseLineGo_unterminated⟩

theorem claim_C10_witness :
    parseLineGo (str "a,b") [] QMode.inq = [str "a,b"] := by
  have := claim_C10.2 (str "a,b") [] (by decide)
  simpa using this

/-! ## Inverting the line stage on newline-free lines -/

lemma splitNL_no_nl (l : Str) (h : '\n' ∉ l) : splitNL l = [l] := by
  induction l with
  | nil => rfl
  | cons c t ih =>
    have hc : c ≠ '\n' := fun he => h (by simp [he])
    have ht := ih (fun hm => h (by simp [hm]))
    rw [splitNL, if_neg hc, ht]

lemma splitNL_append (x rest : Str) (h : '\n' ∉ x) (hd : Str) (tl : List Str)
    (hs : splitNL rest = hd :: tl) :
    splitNL (x ++ rest) = (x ++ hd) :: tl := by
  induction x with
  | nil => simpa using hs
  | cons c t ih =>
    have hc : c ≠ '\n' := fun he => h (by simp [he])
    have ht := ih (fun hm => h (by simp [hm]))
    rw [List.cons_append, splitNL, if_neg hc, ht]
    simp

lemma splitNL_joinNL (ls : List Str) (hne : ls ≠ [])
    (h : ∀ l ∈ ls, '\n' ∉ l) : splitNL (joinNL ls) = ls := by
  induction ls with
  | nil => exact absurd rfl hne
  | cons l ls ih =>
    cases ls with
    | nil => exact splitNL_no_nl l (h l (by simp))
    | cons l2 ls2 =>
      have hrec := ih (by simp) (fun x hx => h x (by simp [List.mem_cons] at hx ⊢; tauto))
      have hj : joinNL (l :: l2 :: ls2) = l ++ '\n' :: joinNL (l2 :: ls2) := rfl
      have hsplit : splitNL ('\n' :: joinNL (l2 :: ls2)) = [] :: (l2 :: ls2) := by
        rw [splitNL, if_pos rfl, hrec]
      have := splitNL_append l _ (h l (by simp)) [] (l2 :: ls2) hsplit
      rw [hj]
      simpa using this

lemma mem_of_getLastQ (l : Str) (c : Char) (h : l.getLast? = some c) : c ∈ l := by
  induction l with
  | nil => simp at h
  | cons a t ih =>
    cases t with
    | nil => simp at h; simp [h]
    | cons b m =>
      rw [List.getLast?_cons_cons] at h
      exact List.mem_cons_of_mem a (ih h)

lemma stripTrailCR_no_cr (l : Str) (h : '\r' ∉ l) : stripTrailCR l = l := by
  rw [stripTrailCR, if_neg]
  intro hg
  exact h (mem_of_getLastQ l '\r' hg)

lemma stripCR_no_cr (ls : List Str) (h : ∀ l ∈ ls, '\r' ∉ l) : stripCR ls = ls := by
  induction ls with
  | nil => rfl
  | cons l ls ih =>
    cases ls with
    | nil => rfl
    | cons l2 ls2 =>
      show stripTrailCR l :: stripCR (l2 :: ls2) = l :: l2 :: ls2
      rw [stripTrailCR_no_cr l (h l (by simp)),
        ih (fun x hx => h x (by simp [List.mem_cons] at hx ⊢; tauto))]

lemma jsTrim_mem (c : Char) (s : Str) (h : c ∈ jsTrim s) : c ∈ s := by
  rw [jsTrim] at h
  rw [List.mem_reverse] at h
  have h1 := (List.dropWhile_sublist (l := (s.dropWhile jsIsWS).reverse) jsIsWS).mem h
  rw [List.mem_reverse] at h1
  exact (List.dropWhile_sublist jsIsWS).mem h1

lemma jsTrim_cons_nonWS (c : Char) (t : Str) (h : jsIsWS c = false) :
    (jsTrim (c :: t)).isEmpty = false := by
  rw [jsTrim, List.dropWhile_cons, h]
  simp only [Bool.false_eq_true, if_false]
  rw [List.isEmpty_eq_false, ne_eq, List.reverse_eq_nil_iff, List.dropWhile_eq_nil_iff]
  intro hall
  have := hall c (by simp)
  simp [h] at this

/-! ## Character content of emitted lines -/

lemma mem_dqEsc (c : Char) (v : Str) (h : c ∈ dqEsc v) : c = '"' ∨ c ∈ v := by
  rw [dqEsc, List.mem_flatMap] at h
  obtain ⟨a, ha, hc⟩ := h
  by_cases haq : a = '"'
  · subst haq; simp at hc; exact Or.inl hc
  · rw [if_neg haq] at hc
    simp at hc
    exact Or.inr (hc ▸ ha)

lemma mem_escapeCSV (c : Char) (v : Str) (h : c ∈ escapeCSV v) : c = '"' ∨ c ∈ v := by
  rw [escapeCSV] at h
  by_cases hs : ',' ∈ v ∨ '"' ∈ v ∨ '\n' ∈ v
  · rw [if_pos hs] at h
    rcases List.mem_cons.mp h with h | h
    · exact Or.inl h
    · rcases List.mem_append.mp h with h | h
      · exact mem_dqEsc c v h
      · simp at h; exact Or.inl h
  · rw [if_neg hs] at h
    exact Or.inr h

lemma weightStr_mem (c : Char) (o : MCOption) (h : c ∈ weightStr o) :
    c = '1' ∨ c = '0' := by
  rcases ho : o.isCorrect <;> rw [weightStr, ho] at h <;> simp [str] at h <;> tauto

/-- Under the no-newline/no-CR hypotheses on the field values of a
group, every line the emitter produces for it is free of newline and
carriage-return characters. -/
lemma groupLines_no_nlcr (points : Nat) (g : QuestionGroup)
    (hq : '\n' ∉ g.qText ∧ '\r' ∉ g.qText)
    (ho : ∀ o ∈ g.options, ('\n' ∉ o.answer ∧ '\r' ∉ o.answer)
        ∧ ('\n' ∉ o.feedback ∧ '\r' ∉ o.feedback)) :
    ∀ l ∈ groupLines points g, '\n' ∉ l ∧ '\r' ∉ l := by
  intro l hl
  have hnat := natRepr_no_special points
  rw [groupLines] at hl
  rcases List.mem_cons.mp hl with rfl | hl
  · constructor <;> decide
  rcases List.mem_cons.mp hl with rfl | hl
  · rw [questionTextLine]
    constructor <;> intro hmem <;> simp only [List.mem_append] at hmem <;>
      rcases hmem with (h | h) | h
    · exact absurd h (by decide)
    · rcases mem_escapeCSV _ _ h with h | h
      · exact absurd h (by decide)
      · exact hq.1 (jsTrim_mem _ _ h)
    · exact absurd h (by decide)
    · exact absurd h (by decide)
    · rcases mem_escapeCSV _ _ h with h | h
      · exact absurd h (by decide)
      · exact hq.2 (jsTrim_mem _ _ h)
    · exact absurd h (by decide)
  rcases List.mem_cons.mp hl with rfl | hl
  · rw [pointsLine]
    constructor <;> intro hmem <;> simp only [List.mem_append] at hmem <;>
      rcases hmem with (h | h) | h
    · exact absurd h (by decide)
    · exact hnat.2.2.1 h
    · exact absurd h (by decide)
    · exact absurd h (by decide)
    · exact hnat.2.2.2 h
    · exact absurd h (by decide)
  rcases List.mem_append.mp hl with hl | hl
  · rw [List.mem_map] at hl
    obtain ⟨o, hoin, rfl⟩ := hl
    have hov := ho o hoin
    rw [optionLine]
    constructor <;> intro hmem <;> simp only [List.mem_append] at hmem <;>
      rcases hmem with ((((h | h) | h) | h) | h) | h
    · exact absurd h (by decide)
    · rcases weightStr_mem _ _ h with h | h <;> exact absurd h (by decide)
    · exact absurd h (by decide)
    · rcases mem_escapeCSV _ _ h with h | h
      · exact absurd h (by decide)
      · exact hov.1.1 h
    · exact absurd h (by decide)
    · rcases mem_escapeCSV _ _ h with h | h
      · exact absurd h (by decide)
      · exact hov.2.1 h
    · exact absurd h (by decide)
    · rcases weightStr_mem _ _ h with h | h <;> exact absurd h (by decide)
    · exact absurd h (by decide)
    · rcases mem_escapeCSV _ _ h with h | h
      · exact absurd h (by decide)
      · exact hov.1.2 h
    · exact absurd h (by decide)
    · rcases mem_escapeCSV _ _ h with h | h
      · exact absurd h (by decide)
      · exact hov.2.2 h
  · simp only [List.mem_singleton] at hl
    subst hl
    constructor <;> decide

/-- Every emitted line starts with a non-whitespace character, so the
blank-line filter of the parser keeps it. -/
lemma groupLines_head_nonWS (points : Nat) (g : QuestionGroup) :
    ∀ l ∈ groupLines points g, ∃ c t, l = c :: t ∧ jsIsWS c = false := by
  intro l hl
  rw [groupLines] at hl
  rcases List.mem_cons.mp hl with rfl | hl
  · exact ⟨'N', _, rfl, by decide⟩
  rcases List.mem_cons.mp hl with rfl | hl
  · exact ⟨'Q', str "uestionText," ++ (escapeCSV (jsTrim g.qText) ++ str ",,,"), rfl, by decide⟩
  rcases List.mem_cons.mp hl with rfl | hl
  · exact ⟨'P', str "oints," ++ (natRepr points ++ str ",,,"), rfl, by decide⟩
  rcases List.mem_append.mp hl with hl | hl
  · rw [List.mem_map] at hl
    obtain ⟨o, _, rfl⟩ := hl
    exact ⟨'O', str "ption," ++ (weightStr o ++ (str "," ++ (escapeCSV o.answer
      ++ (str ",," ++ escapeCSV o.feedback)))), by simp [optionLine, str], by decide⟩
  · simp only [List.mem_singleton] at hl
    subst hl
    exact ⟨',', str ",,,", rfl, by decide⟩

/-- Claim C1 (amended): provided every stem, answer and feedback value
is free of newline and carriage-return characters, re-parsing the
emitted CSV text with the parser line stage recovers exactly the
emitted logical lines, and field-parsing those lines recovers every
answer and feedback value exactly and every stem in trimmed form.  (For
values containing a newline the claim as stated fails, because the
parser splits on newlines before any quote handling; see the
counterexample.) -/
theorem claim_C1 (groups : List QuestionGroup) (points : Nat)
    (hne : groups ≠ [])
    (hg : ∀ g ∈ groups, ('\n' ∉ g.qText ∧ '\r' ∉ g.qText)
        ∧ ∀ o ∈ g.options, ('\n' ∉ o.answer ∧ '\r' ∉ o.answer)
            ∧ ('\n' ∉ o.feedback ∧ '\r' ∉ o.feedback)) :
    reLines ((generateD2LCSV groups points).1) = d2lLines groups points
    ∧ (∀ g ∈ groups, parseCSVLine (questionTextLine g)
        = [str "QuestionText", jsTrim g.qText, [], [], []])
    ∧ (∀ g ∈ groups, ∀ o ∈ g.options, parseCSVLine (optionLine o)
        = [str "Option", weightStr o, o.answer, [], o.feedback]) := by
  refine ⟨?_, fun g _ => parse_questionTextLine g, fun g _ o _ => parse_optionLine o⟩
  have hmem : ∀ l ∈ d2lLines groups points,
      ('\n' ∉ l ∧ '\r' ∉ l) ∧ ∃ c t, l = c :: t ∧ jsIsWS c = false := by
    intro l hl
    rw [d2lLines, List.mem_flatMap] at hl
    obtain ⟨g, hgin, hl⟩ := hl
    exact ⟨groupLines_no_nlcr points g (hg g hgin).1 (hg g hgin).2 l hl,
      groupLines_head_nonWS points g l hl⟩
  have hlnn : d2lLines groups points ≠ [] := by
    cases groups with
    | nil => exact absurd rfl hne
    | cons g gs =>
      show groupLines points g ++ d2lLines gs points ≠ []
      rw [groupLines]
      simp
  show reLines (joinNL (d2lLines groups points)) = d2lLines groups points
  rw [reLines, splitNL_joinNL _ hlnn (fun l hl => ((hmem l hl).1).1),
    stripCR_no_cr _ (fun l hl => ((hmem l hl).1).2)]
  apply List.filter_eq_self.mpr
  intro l hl
  obtain ⟨c, t, rfl, hc⟩ := (hmem l hl).2
  rw [jsTrim_cons_nonWS c t hc]
  rfl

def c1WitGroup : QuestionGroup :=
  ⟨str "Stem", [], [⟨str "Ans", true, str "Note"⟩]⟩

theorem claim_C1_witness :
    reLines ((generateD2LCSV [c1WitGroup] 1).1) = d2lLines [c1WitGroup] 1 :=
  (claim_C1 [c1WitGroup] 1 (by decide) (by decide)).1

/-- Counterexample group for claim C1: the answer value embeds a
newline and the stem carries surrounding blanks. -/
def c1CexGroup : QuestionGroup :=
  ⟨str " Q ", [], [⟨str "a\nb", false, []⟩]⟩

/-- Claim C1 is false as stated: for this group the original answer
value (which contains an embedded newline) and the original stem value
(which carries surrounding whitespace) do not occur among the fields
recovered by re-parsing the emitted CSV text, under any of the parsed
lines. -/
theorem claim_C1_counterexample :
    c1CexGroup.options.map MCOption.answer = [str "a\nb"]
    ∧ c1CexGroup.qText = str " Q "
    ∧ ((reLines ((generateD2LCSV [c1CexGroup] 1).1)).flatMap
        parseCSVLine).contains (str "a\nb") = false
    ∧ ((reLines ((generateD2LCSV [c1CexGroup] 1).1)).flatMap
        parseCSVLine).contains (str " Q ") = false := by
  refine ⟨rfl, rfl, ?_, ?_⟩ <;> decide

/-! ## Specification-side characterisation of the grouper

The following definitions phrase, in the words of the specification,
which groups the grouper is claimed to produce: one group per distinct
trimmed question number of the non-skipped rows in first-occurrence
order, the stem seeded by the first contributing row, the options being
the same-key rows in input order.  The theorems below prove that the
grouper fold equals this characterisation. -/

/-- A row is kept (not skipped) when its trimmed question number is
non-empty and its trimmed uppercased type is exactly MC. -/
def keepRow (r : SourceRow) : Bool :=
  decide (¬ jsTrim r.qNumber = [] ∧ jsToUpper (jsTrim r.qType) = str "MC")

/-- The grouping key of a row: its trimmed question number. -/
def keyOf (r : SourceRow) : Str := jsTrim r.qNumber

def keptRows (rows : List SourceRow) : List SourceRow := rows.filter keepRow

/-- First-occurrence deduplication (keeping the first copy of each
element, in order). -/
def firstDedupAux : List Str → List Str → List Str
  | [], _ => []
  | k :: ks, seen =>
    if k ∈ seen then firstDedupAux ks seen
    else k :: firstDedupAux ks (k :: seen)

def specKeysK (kr : List SourceRow) : List Str :=
  firstDedupAux (kr.map keyOf) []

/-- The stem of the group keyed k: the stem text of the first kept row
with that key. -/
def specStemK (kr : List SourceRow) (k : Str) : Str :=
  match kr.find? (fun r => keyOf r == k) with
  | some r => r.qText
  | none => []

def specGroupK (kr : List SourceRow) (k : Str) : QuestionGroup :=
  ⟨specStemK kr k, [], (kr.filter (fun r => keyOf r == k)).map mkOption⟩

def specMapK (kr : List SourceRow) : GMap :=
  (specKeysK kr).map (fun k => (k, specGroupK kr k))

/-! ## Basic lemmas about the grouper fold -/

lemma keepRow_iff (r : SourceRow) :
    keepRow r = true ↔ (¬ jsTrim r.qNumber = [] ∧ jsToUpper (jsTrim r.qType) = str "MC") := by
  rw [keepRow, decide_eq_true_iff]

lemma processRow_groupMap (st : GState) (r : SourceRow) :
    (processRow st r).groupMap =
      if keepRow r then mapPush st.groupMap (keyOf r) r.qText (mkOption r)
      else st.groupMap := by
  rw [processRow]
  by_cases h1 : jsTrim r.qNumber = []
  · rw [if_pos h1]
    have : keepRow r = false := by
      rw [Bool.eq_false_iff, ne_eq, keepRow_iff]
      tauto
    rw [this]
    rfl
  · rw [if_neg h1]
    by_cases h2 : jsToUpper (jsTrim r.qType) = str "MC"
    · rw [if_neg (by simpa using h2)]
      have : keepRow r = true := keepRow_iff r |>.mpr ⟨h1, h2⟩
      rw [this, if_pos rfl]
      rfl
    · rw [if_pos (by simpa using h2)]
      have : keepRow r = false := by
        rw [Bool.eq_false_iff, ne_eq, keepRow_iff]
        tauto
      rw [this]
      rfl

lemma processRow_skipped (st : GState) (r : SourceRow) :
    (processRow st r).skipped =
      if keepRow r then st.skipped else st.skipped + 1 := by
  rw [processRow]
  by_cases h1 : jsTrim r.qNumber = []
  · rw [if_pos h1]
    have : keepRow r = false := by
      rw [Bool.eq_false_iff, ne_eq, keepRow_iff]
      tauto
    rw [this]
    rfl
  · rw [if_neg h1]
    by_cases h2 : jsToUpper (jsTrim r.qType) = str "MC"
    · rw [if_neg (by simpa using h2)]
      have : keepRow r = true := keepRow_iff r |>.mpr ⟨h1, h2⟩
      rw [this, if_pos rfl]
    · rw [if_pos (by simpa using h2)]
      have : keepRow r = false := by
        rw [Bool.eq_false_iff, ne_eq, keepRow_iff]
        tauto
      rw [this]
      rfl

/-! ## firstDedupAux lemmas -/

lemma firstDedupAux_append (l : List Str) (k : Str) :
    ∀ seen, firstDedupAux (l ++ [k]) seen
      = firstDedupAux l seen ++ (if k ∈ seen ∨ k ∈ l then [] else [k]) := by
  induction l with
  | nil =>
    intro seen
    by_cases h : k ∈ seen <;> simp [firstDedupAux, h]
  | cons x l ih =>
    intro seen
    by_cases hx : x ∈ seen
    · rw [List.cons_append, firstDedupAux, if_pos hx, ih seen, firstDedupAux, if_pos hx]
      have hcond : (k ∈ seen ∨ k ∈ l) ↔ (k ∈ seen ∨ k ∈ x :: l) := by
        constructor
        · rintro (h | h)
          · exact Or.inl h
          · exact Or.inr (List.mem_cons_of_mem x h)
        · rintro (h | h)
          · exact Or.inl h
          · rcases List.mem_cons.mp h with rfl | h
            · exact Or.inl hx
            · exact Or.inr h
      rw [if_congr hcond rfl rfl]
    · rw [List.cons_append, firstDedupAux, if_neg hx, ih (x :: seen),
        firstDedupAux, if_neg hx]
      have hcond : (k ∈ x :: seen ∨ k ∈ l) ↔ (k ∈ seen ∨ k ∈ x :: l) := by
        simp only [List.mem_cons]
        tauto
      rw [if_congr hcond rfl rfl]
      simp

lemma mem_firstDedupAux (x : Str) :
    ∀ (l seen : List Str), x ∈ firstDedupAux l seen ↔ (x ∈ l ∧ x ∉ seen) := by
  intro l
  induction l with
  | nil => intro seen; simp [firstDedupAux]
  | cons y l ih =>
    intro seen
    by_cases hy : y ∈ seen
    · rw [firstDedupAux, if_pos hy, ih seen]
      simp only [List.mem_cons]
      constructor
      · rintro ⟨h1, h2⟩
        exact ⟨Or.inr h1, h2⟩
      · rintro ⟨h1, h2⟩
        rcases h1 with rfl | h1
        · exact absurd hy h2
        · exact ⟨h1, h2⟩
    · rw [firstDedupAux, if_neg hy]
      simp only [List.mem_cons, ih (y :: seen), List.mem_cons]
      constructor
      · rintro (rfl | ⟨h1, h2⟩)
        · exact ⟨Or.inl rfl, hy⟩
        · exact ⟨Or.inr h1, fun hs => h2 (Or.inr hs)⟩
      · rintro ⟨h1, h2⟩
        by_cases hxy : x = y
        · exact Or.inl hxy
        · rcases h1 with rfl | h1
          · exact absurd rfl hxy
          · exact Or.inr ⟨h1, fun hs => (by tauto : False)⟩

lemma nodup_firstDedupAux : ∀ (l seen : List Str), (firstDedupAux l seen).Nodup := by
  intro l
  induction l with
  | nil => intro seen; simp [firstDedupAux]
  | cons y l ih =>
    intro seen
    by_cases hy : y ∈ seen
    · rw [firstDedupAux, if_pos hy]
      exact ih seen
    · rw [firstDedupAux, if_neg hy]
      refine List.nodup_cons.mpr ⟨?_, ih (y :: seen)⟩
      intro hmem
      exact ((mem_firstDedupAux y l (y :: seen)).mp hmem).2 (by simp)

/-! ## mapPush lemmas -/

lemma mapPush_not_mem (m : GMap) (key qt : Str) (o : MCOption)
    (h : key ∉ m.map Prod.fst) :
    mapPush m key qt o = m ++ [(key, ⟨qt, [], [o]⟩)] := by
  induction m with
  | nil => rfl
  | cons p m ih =>
    obtain ⟨k, g⟩ := p
    have hk : k ≠ key := by
      intro he
      exact h (List.mem_cons.mpr (Or.inl he.symm))
    show (if k = key then (k, { g with options := g.options ++ [o] }) :: m
          else (k, g) :: mapPush m key qt o) = _
    rw [if_neg hk, ih (fun hm => h (List.mem_cons_of_mem _ hm))]
    rfl

lemma mapPush_append_mem (m1 : GMap) (key : Str) (g : QuestionGroup) (m2 : GMap)
    (qt : Str) (o : MCOption) (h : key ∉ m1.map Prod.fst) :
    mapPush (m1 ++ (key, g) :: m2) key qt o
      = m1 ++ (key, { g with options := g.options ++ [o] }) :: m2 := by
  induction m1 with
  | nil =>
    show (if key = key then (key, { g with options := g.options ++ [o] }) :: m2
          else (key, g) :: mapPush m2 key qt o) = _
    rw [if_pos rfl]
    rfl
  | cons p m1 ih =>
    obtain ⟨k, g1⟩ := p
    have hk : k ≠ key := by
      intro he
      exact h (List.mem_cons.mpr (Or.inl he.symm))
    show (if k = key then (k, { g1 with options := g1.options ++ [o] }) :: (m1 ++ (key, g) :: m2)
          else (k, g1) :: mapPush (m1 ++ (key, g) :: m2) key qt o) = _
    rw [if_neg hk, ih (fun hm => h (List.mem_cons_of_mem _ hm))]
    rfl

/-! ## find? and filter helpers -/

lemma findQ_append {α : Type} (l1 l2 : List α) (p : α → Bool) :
    (l1 ++ l2).find? p = match l1.find? p with
      | some x => some x
      | none => l2.find? p := by
  induction l1 with
  | nil => simp
  | cons a l ih =>
    rcases hpa : p a with _ | _ <;>
      simp [List.find?_cons, hpa, ih]

lemma specKeysK_keys (kr : List SourceRow) :
    (specMapK kr).map Prod.fst = specKeysK kr := by
  rw [specMapK, List.map_map]
  have hid : (Prod.fst ∘ fun k => (k, specGroupK kr k)) = id := rfl
  rw [hid, List.map_id]

lemma mem_specKeysK (k : Str) (kr : List SourceRow) :
    k ∈ specKeysK kr ↔ k ∈ kr.map keyOf := by
  rw [specKeysK, mem_firstDedupAux]
  simp

lemma specKeysK_append_mem (kr : List SourceRow) (r : SourceRow)
    (hin : keyOf r ∈ kr.map keyOf) :
    specKeysK (kr ++ [r]) = specKeysK kr := by
  rw [specKeysK, specKeysK, List.map_append, List.map_singleton,
    firstDedupAux_append, if_pos (Or.inr hin), List.append_nil]

lemma specKeysK_append_not_mem (kr : List SourceRow) (r : SourceRow)
    (hin : keyOf r ∉ kr.map keyOf) :
    specKeysK (kr ++ [r]) = specKeysK kr ++ [keyOf r] := by
  rw [specKeysK, specKeysK, List.map_append, List.map_singleton,
    firstDedupAux_append, if_neg (by simp [hin])]

lemma specStemK_append_ne (kr : List SourceRow) (r : SourceRow) (k : Str)
    (h : ¬ keyOf r = k) :
    specStemK (kr ++ [r]) k = specStemK kr k := by
  have hbeq : (keyOf r == k) = false := by simp [h]
  rw [specStemK, specStemK, findQ_append]
  cases hfind : List.find? (fun r0 => keyOf r0 == k) kr <;>
    simp [hfind, List.find?, hbeq]

lemma specGroupK_append_ne (kr : List SourceRow) (r : SourceRow) (k : Str)
    (h : ¬ keyOf r = k) :
    specGroupK (kr ++ [r]) k = specGroupK kr k := by
  have hbeq : (keyOf r == k) = false := by simp [h]
  rw [specGroupK, specGroupK, specStemK_append_ne kr r k h, List.filter_append]
  have : List.filter (fun r0 => keyOf r0 == k) [r] = [] := by
    simp [List.filter, hbeq]
  rw [this, List.append_nil]

lemma specGroupK_append_self_mem (kr : List SourceRow) (r : SourceRow)
    (hin : keyOf r ∈ kr.map keyOf) :
    specGroupK (kr ++ [r]) (keyOf r)
      = { specGroupK kr (keyOf r) with
          options := (specGroupK kr (keyOf r)).options ++ [mkOption r] } := by
  have hsome : (List.find? (fun r0 => keyOf r0 == keyOf r) kr).isSome := by
    rw [List.find?_isSome]
    obtain ⟨r0, hr0, hk⟩ := List.mem_map.mp hin
    exact ⟨r0, hr0, by simp [hk]⟩
  obtain ⟨r1, hfind⟩ := Option.isSome_iff_exists.mp hsome
  have hstem : specStemK (kr ++ [r]) (keyOf r) = specStemK kr (keyOf r) := by
    rw [specStemK, specStemK, findQ_append, hfind]
  rw [specGroupK, specGroupK, hstem, List.filter_append]
  have : List.filter (fun r0 => keyOf r0 == keyOf r) [r] = [r] := by
    simp [List.filter]
  rw [this]
  simp

lemma specGroupK_append_self_not_mem (kr : List SourceRow) (r : SourceRow)
    (hin : keyOf r ∉ kr.map keyOf) :
    specGroupK (kr ++ [r]) (keyOf r) = ⟨r.qText, [], [mkOption r]⟩ := by
  have hnone : List.find? (fun r0 => keyOf r0 == keyOf r) kr = none := by
    rw [List.find?_eq_none]
    intro r0 hr0 hk
    exact hin (List.mem_map.mpr ⟨r0, hr0, by simpa using hk⟩)
  have hnil : List.filter (fun r0 => keyOf r0 == keyOf r) kr = [] := by
    rw [List.filter_eq_nil_iff]
    intro r0 hr0 hk
    exact hin (List.mem_map.mpr ⟨r0, hr0, by simpa using hk⟩)
  have hstem : specStemK (kr ++ [r]) (keyOf r) = r.qText := by
    rw [specStemK, findQ_append, hnone]
    simp [List.find?]
  rw [specGroupK, hstem, List.filter_append, hnil]
  have : List.filter (fun r0 => keyOf r0 == keyOf r) [r] = [r] := by
    simp [List.filter]
  rw [this]
  rfl

/-- Appending one kept row to the kept-row list acts on the
specification map exactly as one mapPush does on the grouper map. -/
lemma specMapK_append (kr : List SourceRow) (r : SourceRow) :
    specMapK (kr ++ [r]) = mapPush (specMapK kr) (keyOf r) r.qText (mkOption r) := by
  by_cases hin : keyOf r ∈ kr.map keyOf
  · have hkeys := specKeysK_append_mem kr r hin
    have hkmem : keyOf r ∈ specKeysK kr := (mem_specKeysK _ _).mpr hin
    obtain ⟨ks1, ks2, hks⟩ := List.append_of_mem hkmem
    have hnd : (ks1 ++ keyOf r :: ks2).Nodup := by
      rw [← hks]
      exact nodup_firstDedupAux _ _
    have hnot : keyOf r ∉ ks1 ∧ keyOf r ∉ ks2 := by
      rw [List.nodup_middle] at hnd
      rcases List.nodup_cons.mp hnd with ⟨hna, _⟩
      simp only [List.mem_append] at hna
      tauto
    have hne1 : ∀ k ∈ ks1, ¬ keyOf r = k := by
      intro k hk he
      exact hnot.1 (he ▸ hk)
    have hne2 : ∀ k ∈ ks2, ¬ keyOf r = k := by
      intro k hk he
      exact hnot.2 (he ▸ hk)
    rw [specMapK, hkeys, hks, List.map_append, List.map_cons]
    rw [specMapK, hks, List.map_append, List.map_cons]
    rw [mapPush_append_mem _ _ _ _ _ _ (by
      rw [List.map_map]
      have hid : (Prod.fst ∘ fun k => (k, specGroupK kr k)) = id := rfl
      rw [hid, List.map_id]
      exact hnot.1)]
    congr 1
    · exact List.map_congr_left (fun k hk => by
        rw [specGroupK_append_ne kr r k (hne1 k hk)])
    · congr 1
      · rw [specGroupK_append_self_mem kr r hin]
      · exact List.map_congr_left (fun k hk => by
          rw [specGroupK_append_ne kr r k (hne2 k hk)])
  · have hkeys := specKeysK_append_not_mem kr r hin
    have hne : ∀ k ∈ specKeysK kr, ¬ keyOf r = k := by
      intro k hk he
      exact hin (he ▸ (mem_specKeysK k kr).mp hk)
    rw [specMapK, hkeys, List.map_append, List.map_singleton]
    rw [mapPush_not_mem _ _ _ _ (by
      rw [specKeysK_keys]
      intro hm
      exact hin ((mem_specKeysK _ _).mp hm))]
    rw [specMapK]
    congr 1
    · exact List.map_congr_left (fun k hk => by
        rw [specGroupK_append_ne kr r k (hne k hk)])
    · rw [specGroupK_append_self_not_mem kr r hin]

lemma keptRows_append (rows : List SourceRow) (r : SourceRow) :
    keptRows (rows ++ [r])
      = keptRows rows ++ (if keepRow r then [r] else []) := by
  rw [keptRows, keptRows, List.filter_append]
  congr 1
  rcases h : keepRow r <;> simp [List.filter, h]

/-- Closed form of the grouper fold: the insertion-ordered group map it
builds is exactly the specification map of the kept rows. -/
lemma groupFold_groupMap (rows : List SourceRow) :
    (groupFold rows).groupMap = specMapK (keptRows rows) := by
  induction rows using List.reverseRecOn with
  | nil => rfl
  | append_singleton rows r ih =>
    have hfold : groupFold (rows ++ [r]) = processRow (groupFold rows) r := by
      rw [groupFold, List.foldl_append]
      rfl
    rw [hfold, processRow_groupMap, ih, keptRows_append]
    rcases hk : keepRow r
    · simp only [Bool.false_eq_true, if_false, List.append_nil]
    · simp only [if_true]
      rw [specMapK_append]

/-- The groups returned by the grouper are exactly the specification
groups of the kept rows, indexed by the distinct keys in
first-occurrence order. -/
lemma groups_eq_spec (rows : List SourceRow) :
    (groupQuestions rows).groups
      = (specKeysK (keptRows rows)).map (specGroupK (keptRows rows)) := by
  show ((groupFold rows).groupMap).map Prod.snd = _
  rw [groupFold_groupMap, specMapK, List.map_map]
  rfl

/-- Claim C3: the non-skipped rows are grouped by their trimmed question
number: the produced groups are in bijection with the distinct trimmed
question numbers (each number appearing exactly once), the group of a
number k holds exactly the options of the kept rows whose key is k (in
particular rows with equal keys land in one single group even when
their stems differ, and rows with different keys land in distinct
groups even when their stems agree), and the stem of the group is the
stem text of the first kept row with that key (later rows never
overwrite it). -/
theorem claim_C3 (rows : List SourceRow) :
    (groupQuestions rows).groups
      = (specKeysK (keptRows rows)).map (fun k =>
          { qText := specStemK (keptRows rows) k
            question := []
            options := ((keptRows rows).filter
              (fun r => keyOf r == k)).map mkOption })
    ∧ (specKeysK (keptRows rows)).Nodup :=
  ⟨groups_eq_spec rows, nodup_firstDedupAux _ _⟩

/-- Claim C4: the emitted output lists the question blocks in the
first-occurrence order of the trimmed question numbers of the
non-skipped rows, and inside each block the option lines follow the
input order of the contributing rows (the group of key k is built from
the order-preserving filter of the kept rows with that key). -/
theorem claim_C4 (rows : List SourceRow) (points : Nat) :
    (generateD2LCSV (groupQuestions rows).groups points).1
      = joinNL ((specKeysK (keptRows rows)).flatMap
          (fun k => groupLines points (specGroupK (keptRows rows) k)))
    ∧ ∀ k, (specGroupK (keptRows rows) k).options
        = ((keptRows rows).filter (fun r => keyOf r == k)).map mkOption := by
  constructor
  · show joinNL (d2lLines (groupQuestions rows).groups points) = _
    rw [groups_eq_spec, d2lLines, List.flatMap_map]
  · intro k
    rfl

/-- Claim C2: every option emitted by the emitter originates in exactly
one source row, and its weight field is the string 100 precisely when
that row's answer-match value, trimmed and lowercased, is exactly
"correct"; in every other case (empty, "incorrect", typos) the weight
field is the string 0. -/
theorem claim_C2 (rows : List SourceRow) (g : QuestionGroup) (o : MCOption)
    (hg : g ∈ (groupQuestions rows).groups) (ho : o ∈ g.options) :
    ∃ r ∈ rows, o = mkOption r
      ∧ (weightStr o = str "100" ↔ jsToLower (jsTrim r.answerMatch) = str "correct")
      ∧ (weightStr o = str "0" ↔ ¬ jsToLower (jsTrim r.answerMatch) = str "correct") := by
  rw [groups_eq_spec] at hg
  obtain ⟨k, hk, rfl⟩ := List.mem_map.mp hg
  have ho2 : o ∈ ((keptRows rows).filter (fun r => keyOf r == k)).map mkOption := ho
  obtain ⟨r, hr, rfl⟩ := List.mem_map.mp ho2
  have hrk : r ∈ keptRows rows := (List.mem_filter.mp hr).1
  have hrr : r ∈ rows := List.mem_of_mem_filter hrk
  refine ⟨r, hrr, rfl, ?_, ?_⟩
  · by_cases hc : jsToLower (jsTrim r.answerMatch) = str "correct"
    · constructor
      · intro _
        exact hc
      · intro _
        rw [weightStr]
        simp [mkOption, hc]
    · constructor
      · intro hw
        rw [weightStr] at hw
        simp [mkOption, hc] at hw
        exact absurd hw (by decide)
      · intro hcc
        exact absurd hcc hc
  · by_cases hc : jsToLower (jsTrim r.answerMatch) = str "correct"
    · constructor
      · intro hw
        rw [weightStr] at hw
        simp [mkOption, hc] at hw
        exact absurd hw (by decide)
      · intro hcc
        exact absurd hc hcc
    · constructor
      · intro _
        exact hc
      · intro _
        rw [weightStr]
        simp [mkOption, hc]

def c2WitRows : List SourceRow :=
  [⟨str "1", str "MC", str "S", [], str "A", str "Correct", str "N"⟩,
   ⟨str "1", str "MC", str "S", [], str "B", str "wrong", str "M"⟩]

theorem claim_C2_witness :
    ∃ r ∈ c2WitRows, (⟨str "A", true, str "N"⟩ : MCOption) = mkOption r
      ∧ (weightStr ⟨str "A", true, str "N"⟩ = str "100"
          ↔ jsToLower (jsTrim r.answerMatch) = str "correct")
      ∧ (weightStr ⟨str "A", true, str "N"⟩ = str "0"
          ↔ ¬ jsToLower (jsTrim r.answerMatch) = str "correct") :=
  claim_C2 c2WitRows
    ⟨str "S", [], [⟨str "A", true, str "N"⟩, ⟨str "B", false, str "M"⟩]⟩
    ⟨str "A", true, str "N"⟩ (by decide) (by decide)

/-! ## Option and skip counting -/

def sumOptions (m : GMap) : Nat := (m.map (fun p => p.2.options.length)).sum

lemma sumOptions_mapPush (m : GMap) (key qt : Str) (o : MCOption) :
    sumOptions (mapPush m key qt o) = sumOptions m + 1 := by
  induction m with
  | nil => rfl
  | cons p m ih =>
    obtain ⟨k, g⟩ := p
    show sumOptions (if k = key then (k, { g with options := g.options ++ [o] }) :: m
      else (k, g) :: mapPush m key qt o) = _
    by_cases hk : k = key
    · rw [if_pos hk]
      show (g.options ++ [o]).length + sumOptions m = (g.options.length + sumOptions m) + 1
      simp only [List.length_append, List.length_singleton]
      omega
    · rw [if_neg hk]
      show g.options.length + sumOptions (mapPush m key qt o)
        = (g.options.length + sumOptions m) + 1
      rw [ih]
      omega

lemma foldl_skipped (rows : List SourceRow) :
    ∀ st : GState, (rows.foldl processRow st).skipped
      = st.skipped + (rows.filter (fun r => !keepRow r)).length := by
  induction rows with
  | nil => intro st; simp
  | cons r rows ih =>
    intro st
    rw [List.foldl_cons, ih (processRow st r), processRow_skipped]
    rcases hk : keepRow r <;> simp [List.filter_cons, hk] <;> omega

lemma foldl_sumOptions (rows : List SourceRow) :
    ∀ st : GState, sumOptions ((rows.foldl processRow st).groupMap)
      = sumOptions st.groupMap + (rows.filter keepRow).length := by
  induction rows with
  | nil => intro st; simp
  | cons r rows ih =>
    intro st
    rw [List.foldl_cons, ih (processRow st r)]
    have := processRow_groupMap st r
    rcases hk : keepRow r
    · rw [hk] at this
      simp only [Bool.false_eq_true, if_false] at this
      rw [this]
      simp [List.filter_cons, hk]
    · rw [hk] at this
      simp only [if_true] at this
      rw [this, sumOptions_mapPush]
      simp [List.filter_cons, hk]
      omega

lemma length_filter_partition (rows : List SourceRow) :
    (rows.filter keepRow).length + (rows.filter (fun r => !keepRow r)).length
      = rows.length := by
  induction rows with
  | nil => rfl
  | cons r rows ih =>
    rcases hk : keepRow r <;> simp [List.filter_cons, hk] <;> omega

lemma generateD2LCSV_count (groups : List QuestionGroup) (points : Nat) :
    (generateD2LCSV groups points).2
      = (groups.map (fun g => g.options.length)).sum := by
  show groups.foldl (fun n g => n + g.options.length) 0 = _
  have H : ∀ (gs : List QuestionGroup) (n : Nat),
      gs.foldl (fun a g => a + g.options.length) n
        = n + (gs.map (fun g => g.options.length)).sum := by
    intro gs
    induction gs with
    | nil => intro n; simp
    | cons g gs ih =>
      intro n
      rw [List.foldl_cons, ih, List.map_cons, List.sum_cons]
      omega
  rw [H]
  omega

/-- Unfolding of the top-level conversion once the parse result is
known. -/
lemma convertToD2L_eq (content : Str) (points : Nat) (hdrs : List Str)
    (rws : List Rec) (hparse : parseCSV content = some (hdrs, rws)) :
    convertToD2L content points =
      (if (!(validateColumns hdrs).1) = true then
        Except.error (ConvError.missingColumns (validateColumns hdrs).2)
      else if (groupQuestions (loadSourceRows rws)).groups.isEmpty = true then
        Except.error ConvError.noQuestions
      else Except.ok
        { csvContent :=
            (generateD2LCSV (groupQuestions (loadSourceRows rws)).groups points).1
          questionsCount := (groupQuestions (loadSourceRows rws)).groups.length
          optionsCount :=
            (generateD2LCSV (groupQuestions (loadSourceRows rws)).groups points).2
          warnings := (groupQuestions (loadSourceRows rws)).warnings
          skippedRows := (groupQuestions (loadSourceRows rws)).skipped }) := by
  rw [convertToD2L, hparse]

/-- Claim C5 (amended): on a successful conversion the option count
equals the number of kept rows (valid MC rows with a non-empty trimmed
question number); equivalently it equals the total number of data rows
minus the skipped-row count, and it equals the sum over all groups of
the length of the group's option sequence.  (The claim as frozen
asserts the option count equals the number N of valid MC rows minus the
skipped-row count; that subtraction double-counts the skipped rows and
fails as soon as one row is skipped, see the counterexample.) -/
theorem claim_C5 (content : Str) (points : Nat) (hdrs : List Str)
    (rws : List Rec) (res : ConversionResult)
    (hparse : parseCSV content = some (hdrs, rws))
    (hok : convertToD2L content points = Except.ok res) :
    res.optionsCount = (keptRows (loadSourceRows rws)).length
    ∧ res.optionsCount + res.skippedRows = rws.length
    ∧ res.optionsCount
        = (((groupQuestions (loadSourceRows rws)).groups).map
            (fun g => g.options.length)).sum := by
  rw [convertToD2L_eq content points hdrs rws hparse] at hok
  rcases hv : (validateColumns hdrs).1
  · rw [hv] at hok
    simp only [Bool.not_false, if_true] at hok
    exact absurd hok (by simp)
  · rw [hv] at hok
    simp only [Bool.not_true, Bool.false_eq_true, if_false] at hok
    rcases hg : (groupQuestions (loadSourceRows rws)).groups.isEmpty
    · rw [hg] at hok
      simp only [Bool.false_eq_true, if_false] at hok
      have hres := Except.ok.inj hok
      subst hres
      refine ⟨?_, ?_, ?_⟩
      · show (generateD2LCSV (groupQuestions (loadSourceRows rws)).groups points).2 = _
        rw [generateD2LCSV_count]
        show ((((groupFold (loadSourceRows rws)).groupMap).map Prod.snd).map
          (fun g => g.options.length)).sum = _
        rw [List.map_map]
        show sumOptions (((loadSourceRows rws).foldl processRow ⟨[], [], 0⟩).groupMap) = _
        rw [foldl_sumOptions]
        simp [sumOptions, keptRows]
      · show (generateD2LCSV (groupQuestions (loadSourceRows rws)).groups points).2
            + (groupQuestions (loadSourceRows rws)).skipped = _
        rw [generateD2LCSV_count]
        have h1 : ((((groupFold (loadSourceRows rws)).groupMap).map Prod.snd).map
            (fun g => g.options.length)).sum = (keptRows (loadSourceRows rws)).length := by
          rw [List.map_map]
          show sumOptions (((loadSourceRows rws).foldl processRow ⟨[], [], 0⟩).groupMap) = _
          rw [foldl_sumOptions]
          simp [sumOptions, keptRows]
        have h2 : (groupQuestions (loadSourceRows rws)).skipped
            = ((loadSourceRows rws).filter (fun r => !keepRow r)).length := by
          show ((loadSourceRows rws).foldl processRow ⟨[], [], 0⟩).skipped = _
          rw [foldl_skipped]
          simp
        show ((((groupFold (loadSourceRows rws)).groupMap).map Prod.snd).map
          (fun g => g.options.length)).sum + (groupQuestions (loadSourceRows rws)).skipped = _
        rw [h1, h2]
        have h3 := length_filter_partition (loadSourceRows rws)
        have h4 : (loadSourceRows rws).length = rws.length := List.length_map _ _
        rw [keptRows] at *
        omega
      · show (generateD2LCSV (groupQuestions (loadSourceRows rws)).groups points).2 = _
        rw [generateD2LCSV_count]
    · rw [hg] at hok
      simp only [if_true] at hok
      exact absurd hok (by simp)

/-- Counterexample input for claim C5: one valid MC row and one row
with an empty question number (skipped).  The number of valid MC rows
is 1, the skipped-row count is 1, yet the emitted option count is 1 and
not 1 - 1 = 0 as the claim as stated would require. -/
def c5Cex : Str :=
  str "Q #,Q Type,Q Text,Answer,Answer Match,Notes\n1,MC,S,A,Correct,N\n,MC,S2,B,,"

/-- Claim C5 is false as stated: on the counterexample input the number
of valid MC rows is 1 and the skipped-row count is 1, yet the returned
option count is 1, not 1 - 1. -/
theorem claim_C5_counterexample :
    (match convertToD2L c5Cex 1 with
      | Except.ok r => some (r.optionsCount, r.skippedRows)
      | Except.error _ => none) = some (1, 1)
    ∧ (match parseCSV c5Cex with
       | some (_, rws) => (keptRows (loadSourceRows rws)).length
       | none => 0) = 1
    ∧ ¬ ((1 : Nat) = 1 - 1) := by
  refine ⟨by decide, by decide, by decide⟩

def c5Wit : Str :=
  str "Q #,Q Type,Q Text,Answer,Answer Match,Notes\n1,MC,S,A,Correct,N"

def c5WitHdrs : List Str :=
  [str "Q #", str "Q Type", str "Q Text", str "Answer", str "Answer Match", str "Notes"]

def c5WitRws : List Rec :=
  [[(str "Q #", str "1"), (str "Q Type", str "MC"), (str "Q Text", str "S"),
    (str "Answer", str "A"), (str "Answer Match", str "Correct"),
    (str "Notes", str "N")]]

theorem claim_C5_witness :
    ∃ res, convertToD2L c5Wit 1 = Except.ok res
      ∧ res.optionsCount = (keptRows (loadSourceRows c5WitRws)).length
      ∧ res.optionsCount + res.skippedRows = c5WitRws.length := by
  obtain ⟨res, hok⟩ : ∃ res, convertToD2L c5Wit 1 = Except.ok res := ⟨_, rfl⟩
  have h := claim_C5 c5Wit 1 c5WitHdrs c5WitRws res (by decide) hok
  exact ⟨res, hok, h.1, h.2.1⟩

/-- Claim C6: when the header row lacks at least one required column
(case-insensitive, trimmed comparison), the top-level conversion fails
with the missing-columns error carrying the canonical display names of
exactly the missing required columns, and no ConversionResult is
produced. -/
theorem claim_C6 (content : Str) (points : Nat) (hdrs : List Str) (rws : List Rec)
    (hparse : parseCSV content = some (hdrs, rws))
    (hmiss : (validateColumns hdrs).2 ≠ []) :
    convertToD2L content points
      = Except.error (ConvError.missingColumns (validateColumns hdrs).2)
    ∧ ∀ c, c ∈ (validateColumns hdrs).2
        ↔ (c ∈ REQUIRED_COLUMNS
          ∧ ¬ ((hdrs.map (fun h => jsToLower (jsTrim h))).contains
              (jsToLower c)) = true) := by
  constructor
  · rw [convertToD2L_eq content points hdrs rws hparse]
    have hv : (validateColumns hdrs).1 = false := by
      show (REQUIRED_COLUMNS.filter _).isEmpty = false
      rw [List.isEmpty_eq_false]
      exact hmiss
    rw [hv]
    simp only [Bool.not_false, if_true]
  · intro c
    show c ∈ REQUIRED_COLUMNS.filter
      (fun required => !((hdrs.map (fun h => jsToLower (jsTrim h))).contains
        (jsToLower required))) ↔ _
    rw [List.mem_filter]
    simp only [Bool.not_eq_true']
    constructor
    · rintro ⟨h1, h2⟩
      exact ⟨h1, by rw [h2]; simp⟩
    · rintro ⟨h1, h2⟩
      exact ⟨h1, by rwa [Bool.eq_false_iff, ne_eq]⟩

def c6Wit : Str := str "A,B\n1,2"

def c6WitHdrs : List Str := [str "A", str "B"]

def c6WitRws : List Rec := [[(str "A", str "1"), (str "B", str "2")]]

theorem claim_C6_witness :
    convertToD2L c6Wit 1
      = Except.error (ConvError.missingColumns (validateColumns c6WitHdrs).2)
    ∧ (str "Notes" ∈ (validateColumns c6WitHdrs).2
        ↔ (str "Notes" ∈ REQUIRED_COLUMNS
          ∧ ¬ ((c6WitHdrs.map (fun h => jsToLower (jsTrim h))).contains
              (jsToLower (str "Notes"))) = true)) :=
  ⟨(claim_C6 c6Wit 1 c6WitHdrs c6WitRws (by decide) (by decide)).1,
   (claim_C6 c6Wit 1 c6WitHdrs c6WitRws (by decide) (by decide)).2 (str "Notes")⟩

/-- Claim C7: an input that parses and passes column validation but
yields zero question groups fails with the no-questions error before
the emitter runs, so no output CSV text is produced. -/
theorem claim_C7 (content : Str) (points : Nat) (hdrs : List Str) (rws : List Rec)
    (hparse : parseCSV content = some (hdrs, rws))
    (hvalid : (validateColumns hdrs).1 = true)
    (hempty : (groupQuestions (loadSourceRows rws)).groups = []) :
    convertToD2L content points = Except.error ConvError.noQuestions := by
  rw [convertToD2L_eq content points hdrs rws hparse, hvalid]
  simp only [Bool.not_true, Bool.false_eq_true, if_false]
  rw [hempty]
  simp

def c7Wit : Str := str "Q Type,Q Text,Answer,Answer Match,Notes"

theorem claim_C7_witness :
    convertToD2L c7Wit 1 = Except.error ConvError.noQuestions :=
  claim_C7 c7Wit 1
    [str "Q Type", str "Q Text", str "Answer", str "Answer Match", str "Notes"]
    [] (by decide) (by decide) (by decide)

/-! ## Claim C9: the question-prompt column never influences the result -/

/-- Two record entries agree except possibly in the value stored under
a key whose trimmed lowercase form is exactly "question". -/
def pairAgree (p q : Str × Str) : Prop :=
  p.1 = q.1 ∧ (jsToLower (jsTrim p.1) ≠ str "question" → p.2 = q.2)

def rowAgree (r1 r2 : Rec) : Prop := List.Forall₂ pairAgree r1 r2

lemma getColumnValue_cons (p : Str × Str) (l : Rec) (col : Str) :
    getColumnValue (p :: l) col
      = if (jsToLower (jsTrim p.1) == jsToLower col) = true then p.2
        else getColumnValue l col := by
  rw [getColumnValue, List.find?_cons]
  by_cases hp : (jsToLower (jsTrim p.1) == jsToLower col) = true
  · rw [if_pos hp, hp]
  · rw [if_neg hp, Bool.eq_false_iff.mpr hp]
    rfl

lemma getColumnValue_agree {r1 r2 : Rec} (h : rowAgree r1 r2) (col : Str)
    (hcol : jsToLower col ≠ str "question") :
    getColumnValue r1 col = getColumnValue r2 col := by
  induction h with
  | nil => rfl
  | @cons a b l1 l2 hab hrest ih =>
    rw [getColumnValue_cons, getColumnValue_cons, hab.1]
    by_cases hp : (jsToLower (jsTrim b.1) == jsToLower col) = true
    · rw [if_pos hp, if_pos hp]
      rw [beq_iff_eq] at hp
      apply hab.2
      rw [hab.1, hp]
      exact hcol
    · rw [if_neg hp, if_neg hp]
      exact ih

lemma toSourceRow_agree (r1 r2 : Rec) (h : rowAgree r1 r2) :
    toSourceRow r1 = { toSourceRow r2 with question := (toSourceRow r1).question } := by
  have h1 := getColumnValue_agree h (str "Q #") (by decide)
  have h2 := getColumnValue_agree h (str "Q Type") (by decide)
  have h3 := getColumnValue_agree h (str "Q Text") (by decide)
  have h4 := getColumnValue_agree h (str "Answer") (by decide)
  have h5 := getColumnValue_agree h (str "Answer Match") (by decide)
  have h6 := getColumnValue_agree h (str "Notes") (by decide)
  rw [toSourceRow, toSourceRow, h1, h2, h3, h4, h5, h6]

lemma processRow_question_irrel (st : GState) (r : SourceRow) (q : Str) :
    processRow st { r with question := q } = processRow st r := by
  rcases r with ⟨a, b, c, d, e, f, g⟩
  rfl

lemma groupQuestions_agree (rows1 rows2 : List SourceRow)
    (h : List.Forall₂ (fun s1 s2 => s1 = { s2 with question := s1.question })
      rows1 rows2) :
    groupQuestions rows1 = groupQuestions rows2 := by
  suffices hfold : ∀ st, rows1.foldl processRow st = rows2.foldl processRow st by
    rw [groupQuestions, groupQuestions, groupFold, groupFold, hfold]
  induction h with
  | nil => intro st; rfl
  | cons hab hrest ih =>
    intro st
    rw [List.foldl_cons, List.foldl_cons, hab, processRow_question_irrel]
    exact ih _

/-- Claim C9: two inputs that parse to the same headers and to rows
that agree on every column except the optional question-prompt column
convert to identical ConversionResults: the prompt value never
influences grouping, warnings, counts or the emitted text. -/
theorem claim_C9 (content1 content2 : Str) (points : Nat) (hdrs : List Str)
    (rws1 rws2 : List Rec)
    (hp1 : parseCSV content1 = some (hdrs, rws1))
    (hp2 : parseCSV content2 = some (hdrs, rws2))
    (hrows : List.Forall₂ rowAgree rws1 rws2) :
    convertToD2L content1 points = convertToD2L content2 points := by
  rw [convertToD2L_eq content1 points hdrs rws1 hp1,
    convertToD2L_eq content2 points hdrs rws2 hp2]
  have hload : groupQuestions (loadSourceRows rws1)
      = groupQuestions (loadSourceRows rws2) := by
    apply groupQuestions_agree
    rw [loadSourceRows, loadSourceRows]
    rw [List.forall₂_map_left_iff, List.forall₂_map_right_iff]
    exact List.Forall₂.imp (fun a b hab => toSourceRow_agree a b hab) hrows
  rw [hload]

def c9aWit : Str :=
  str "Q #,Q Type,Q Text,Question,Answer,Answer Match,Notes\n1,MC,S,P1,A,Correct,N"

def c9bWit : Str :=
  str "Q #,Q Type,Q Text,Question,Answer,Answer Match,Notes\n1,MC,S,P2,A,Correct,N"

def c9WitHdrs : List Str :=
  [str "Q #", str "Q Type", str "Q Text", str "Question", str "Answer",
   str "Answer Match", str "Notes"]

def c9WitRow (prompt : String) : Rec :=
  [(str "Q #", str "1"), (str "Q Type", str "MC"), (str "Q Text", str "S"),
   (str "Question", str prompt), (str "Answer", str "A"),
   (str "Answer Match", str "Correct"), (str "Notes", str "N")]

theorem claim_C9_witness :
    convertToD2L c9aWit 1 = convertToD2L c9bWit 1 := by
  refine claim_C9 c9aWit c9bWit 1 c9WitHdrs [c9WitRow "P1"] [c9WitRow "P2"]
    (by decide) (by decide) ?_
  refine List.Forall₂.cons ?_ List.Forall₂.nil
  refine List.Forall₂.cons ⟨rfl, fun _ => rfl⟩ ?_
  refine List.Forall₂.cons ⟨rfl, fun _ => rfl⟩ ?_
  refine List.Forall₂.cons ⟨rfl, fun _ => rfl⟩ ?_
  refine List.Forall₂.cons ⟨rfl, fun hq => absurd (by decide) hq⟩ ?_
  refine List.Forall₂.cons ⟨rfl, fun _ => rfl⟩ ?_
  refine List.Forall₂.cons ⟨rfl, fun _ => rfl⟩ ?_
  exact List.Forall₂.cons ⟨rfl, fun _ => rfl⟩ List.Forall₂.nil

end D2L
